import Mathlib

/-!
Shallow embedding of the httPWM control-loop core (src/src/lib.rs,
src/src/lib/scheduler.rs, src/src/bin/main.rs).

Modelling conventions:
- `chrono::NaiveTime` is a number of seconds since midnight (a `Nat`).
- A wall-clock moment (`chrono::Local::now()`) is a `LocalTime`: a calendar
  day number plus a time of day; day 0 is a Monday, so the weekday of day
  `d` is `d % 7` counted from Monday.
- `chrono::Duration` is a signed number of seconds (an `Int`).
- `f64` values are rationals; a Rust `assert!` failure (panic) is `none`.
-/

namespace HttPWM

/-- Modelled from the spec: the weekday type `crate::lib::Day` used by
`WeekScheduler` (referenced from src/src/lib/scheduler.rs but absent from
src), one variant per weekday. -/
inductive Day where
  | monday
  | tuesday
  | wednesday
  | thursday
  | friday
  | saturday
  | sunday
deriving DecidableEq

/-- Modelled from the spec: `Day::next` advances one weekday forward,
cyclically (Sunday -> Monday). -/
def Day.next : Day → Day
  | .monday => .tuesday
  | .tuesday => .wednesday
  | .wednesday => .thursday
  | .thursday => .friday
  | .friday => .saturday
  | .saturday => .sunday
  | .sunday => .monday

/-- Index of a weekday, Monday = 0, relating weekdays to calendar day numbers. -/
def Day.toNat : Day → Nat
  | .monday => 0
  | .tuesday => 1
  | .wednesday => 2
  | .thursday => 3
  | .friday => 4
  | .saturday => 5
  | .sunday => 6

/-- Weekday of a calendar day number (day 0 is a Monday). -/
def Day.ofIndex (n : Nat) : Day :=
  match n % 7 with
  | 0 => .monday
  | 1 => .tuesday
  | 2 => .wednesday
  | 3 => .thursday
  | 4 => .friday
  | 5 => .saturday
  | _ => .sunday

/-- `WeekScheduler` from src/src/lib/scheduler.rs: one stored time of day
per weekday plus the current-day cursor. -/
structure WeekScheduler where
  mon : Nat
  tue : Nat
  wed : Nat
  thu : Nat
  fri : Nat
  sat : Nat
  sun : Nat
  current : Day
deriving DecidableEq

/-- `WeekScheduler::get` from scheduler.rs: the stored time of day for `day`. -/
def WeekScheduler.get (ws : WeekScheduler) (day : Day) : Nat :=
  match day with
  | .monday => ws.mon
  | .tuesday => ws.tue
  | .wednesday => ws.wed
  | .thursday => ws.thu
  | .friday => ws.fri
  | .saturday => ws.sat
  | .sunday => ws.sun

/-- The inherent `WeekScheduler::get_next` from scheduler.rs: the stored
time of day for the weekday after the cursor, `self.get(self.current.next())`. -/
def WeekScheduler.next_time (ws : WeekScheduler) : Nat :=
  ws.get ws.current.next

/-- `<WeekScheduler as Scheduler>::add` from scheduler.rs: advance the
cursor one weekday and return the renewed entry. -/
def WeekScheduler.add (ws : WeekScheduler) : Option WeekScheduler :=
  some { ws with current := ws.current.next }

/-- A wall-clock moment: calendar day number and seconds since midnight. -/
structure LocalTime where
  day : Nat
  time : Nat
deriving DecidableEq

/-- The wall-clock instant `date.and_time(t)` of time of day `t` on day `d`,
in seconds on a single absolute axis. -/
def dayTime (d : Nat) (t : Nat) : Int := (d : Int) * 86400 + (t : Int)

/-- The absolute instant of a `LocalTime`. -/
def LocalTime.instant (now : LocalTime) : Int := dayTime now.day now.time

/-- The weekday of a `LocalTime` (day 0 is a Monday). -/
def LocalTime.weekday (now : LocalTime) : Day := Day.ofIndex now.day

/-- `<WeekScheduler as Scheduler>::get_next` from scheduler.rs: with
`next = self.get_next()`, schedule today at `next` if `now.time() < next`,
else tomorrow (`now.date().succ()`) at `next`, and return `next - now`.
`Local::now()` is passed explicitly as `now`. -/
def WeekScheduler.get_next (ws : WeekScheduler) (now : LocalTime) : Int :=
  let next := ws.next_time
  let inst := if now.time < next then dayTime now.day next else dayTime (now.day + 1) next
  inst - now.instant

/-- `RepeatingScheduler` from scheduler.rs: a single daily time of day. -/
structure RepeatingScheduler where
  time : Nat
deriving DecidableEq

/-- `<RepeatingScheduler as Scheduler>::get_next` from scheduler.rs: today
at `self.0` if that time of day has not yet passed, else tomorrow. -/
def RepeatingScheduler.get_next (r : RepeatingScheduler) (now : LocalTime) : Int :=
  let next := r.time
  let inst := if now.time < next then dayTime now.day next else dayTime (now.day + 1) next
  inst - now.instant

/-- `RepeatingScheduler`'s firing hook: the impl in scheduler.rs does not
override `Scheduler::add`, so the trait's default body `{ None }` applies. -/
def RepeatingScheduler.add (_r : RepeatingScheduler) : Option RepeatingScheduler :=
  none

/-- `Strength` from src/src/lib.rs: a brightness value. The range invariant
is enforced by the constructors, not by the type. -/
structure Strength where
  val : ℚ
deriving DecidableEq

/-- `Strength::new` from lib.rs: `assert!(value <= 1.0); assert!(value >= 0.0)`,
then `Self(value)`. An assertion failure (panic) is modelled as `none`. -/
def Strength.new (value : ℚ) : Option Strength :=
  if value ≤ 1 ∧ 0 ≤ value then some ⟨value⟩ else none

/-- `Strength::new_clamped` from lib.rs: clamp below 0 to 0 and above 1 to 1. -/
def Strength.new_clamped (value : ℚ) : Strength :=
  if value < 0 then ⟨0⟩ else if value > 1 then ⟨1⟩ else ⟨value⟩

/-- An `f64` together with its NaN value (infinities behave like ordinary
out-of-range values for the constructors and are not distinguished here):
every comparison involving NaN is false in Rust. -/
inductive F64 where
  | nan
  | finite (q : ℚ)
deriving DecidableEq

/-- Rust `<` on f64: false whenever either side is NaN. -/
def F64.lt : F64 → F64 → Bool
  | .finite a, .finite b => decide (a < b)
  | _, _ => false

/-- Rust `<=` on f64: false whenever either side is NaN. -/
def F64.le : F64 → F64 → Bool
  | .finite a, .finite b => decide (a ≤ b)
  | _, _ => false

/-- `Strength` over the NaN-aware f64 model. -/
structure StrengthF where
  val : F64
deriving DecidableEq

/-- Whether a `StrengthF` is within the range [0, 1] the invariant demands
(NaN is not within range). -/
def StrengthF.inRange (s : StrengthF) : Bool :=
  match s.val with
  | .nan => false
  | .finite q => decide (0 ≤ q ∧ q ≤ 1)

/-- `Strength::new` from lib.rs over the NaN-aware model:
`assert!(value <= 1.0); assert!(value >= 0.0)` — both comparisons are false
at NaN, so NaN panics (`none`). -/
def StrengthF.new (value : F64) : Option StrengthF :=
  if value.le (.finite 1) && (F64.finite 0).le value then some ⟨value⟩ else none

/-- `Strength::new_clamped` from lib.rs over the NaN-aware model:
`value < 0.0` and `value > 1.0` are both false at NaN, so the final branch
wraps the raw value. -/
def StrengthF.new_clamped (value : F64) : StrengthF :=
  if value.lt (.finite 0) then ⟨.finite 0⟩
  else if (F64.finite 1).lt value then ⟨.finite 1⟩
  else ⟨value⟩

/-- `TransitionInterpolation` as declared in src/src/lib.rs lines 27-31:
exactly the two variants `Linear` and `Sine`. -/
inductive TransitionInterpolation where
  | Linear
  | Sine
deriving DecidableEq

/-- Modelled from the spec: the four-kind interpolation enum — Linear, Sine,
LinearToAndBack(multiplier), SineToAndBack(multiplier) — that the call sites
in src/src/bin/main.rs (`SetTransition::to_transition`, and the transitions
built in `main`) require; the `TransitionInterpolation` declaration present
in src's lib.rs snapshot lists only `Linear` and `Sine`. -/
inductive InterpolationFull where
  | Linear
  | Sine
  | LinearToAndBack (multiplier : ℚ)
  | SineToAndBack (multiplier : ℚ)
deriving DecidableEq

/-- The interpolation `match` of `SetTransition::to_transition` from
src/src/bin/main.rs lines 197-209. `extras` holds the parse result of each
extra string (`none` for an unparseable one); the Rust guards
`if self.extras.len() == 1` and the parse-failure arms all fall through to
`None`. -/
def parseInterpolation (name : String) (extras : List (Option ℚ)) :
    Option InterpolationFull :=
  if name = "linear" then some .Linear
  else if name = "sine" then some .Sine
  else if name = "linear-extra" then
    match extras with
    | [some m] => some (.LinearToAndBack m)
    | _ => none
  else if name = "sine-extra" then
    match extras with
    | [some m] => some (.SineToAndBack m)
    | _ => none
  else none

/-- A schedule entry of the set: one of the two `Scheduler` implementors in
scheduler.rs (auxiliary entries are trait objects; these are the concrete
kinds the repository defines). -/
inductive Entry where
  | week (ws : WeekScheduler)
  | repeating (r : RepeatingScheduler)
deriving DecidableEq

/-- `Scheduler::get_next` dispatched over the concrete entry kinds. -/
def Entry.get_next (e : Entry) (now : LocalTime) : Int :=
  match e with
  | .week ws => ws.get_next now
  | .repeating r => r.get_next now

/-- `Scheduler::add` dispatched over the concrete entry kinds. -/
def Entry.add (e : Entry) : Option Entry :=
  match e with
  | .week ws => ws.add.map .week
  | .repeating r => r.add.map .repeating

/-- Modelled from the spec: `scheduler::State`'s schedule set (referenced
from `Controller::new` in lib.rs but absent from src) — exactly one
distinguished primary weekly entry plus zero or more auxiliary entries. -/
structure State where
  primary : WeekScheduler
  auxiliary : List Entry
deriving DecidableEq

/-- Modelled from the spec: processing `Command::ClearAllSchedulers`
(`ClearAuxiliarySchedules`) removes all non-primary entries. -/
def State.clearAllSchedulers (s : State) : State :=
  { s with auxiliary := [] }

/-- Modelled from the spec: the set's `next_fire()` — the shortest time span
across all entries, the primary one included. -/
def State.next_fire (s : State) (now : LocalTime) : Int :=
  s.auxiliary.foldr (fun e acc => min (e.get_next now) acc) (s.primary.get_next now)

/-- Modelled from the spec: `fire_due_entries` over the auxiliary entries —
every entry whose own `next_fire()` is ≤ 0 is fired: it is replaced by its
renewal when `Scheduler::add` returns one, else dropped from the set. -/
def fireDueAux (now : LocalTime) : List Entry → List Entry
  | [] => []
  | e :: rest =>
    if e.get_next now ≤ 0 then
      match e.add with
      | some renewed => renewed :: fireDueAux now rest
      | none => fireDueAux now rest
    else e :: fireDueAux now rest

/-- `Sleeping` from src/src/lib.rs: the control loop's stored wait
disposition. -/
inductive Sleeping where
  | forever
  | to (instant : Int)
  | wake
deriving DecidableEq

/-- What one iteration of the control loop in `Controller::new` did before
(possibly) reaching `state.process`. -/
inductive IterStep (α : Type) where
  /-- the iteration slept for the 1 ms poll granularity and re-polled
  (`continue`), without calling `process` -/
  | polled : IterStep α
  /-- the iteration called `state.process` with this optional command -/
  | processed : Option α → IterStep α
deriving DecidableEq

/-- The observable outcome of one loop iteration up to the `process` call:
what was done, the commands still queued, and the sleep disposition in force
when `process` is (or would next be) reached. -/
structure IterResult (α : Type) where
  step : IterStep α
  queue : List α
  sleeping : Sleeping
deriving DecidableEq

/-- One iteration of the control-loop body in `Controller::new`
(src/src/lib.rs lines 124-147), up to the `state.process(command)` call.
`queue` is the mailbox contents, its head the next `try_recv` result;
`instant.checked_duration_since(Instant::now())` is `some` exactly when
`now ≤ instant`. -/
def loopIter {α : Type} (queue : List α) (sleeping : Sleeping) (now : Int) :
    IterResult α :=
  match queue with
  | c :: rest => ⟨.processed (some c), rest, .wake⟩
  | [] =>
    match sleeping with
    | .to instant =>
      if now ≤ instant then ⟨.polled, [], .to instant⟩
      else ⟨.processed none, [], .to instant⟩
    | .forever => ⟨.polled, [], .forever⟩
    | .wake => ⟨.processed none, [], .wake⟩

/-- Offset in days, in 1..7, from `today` to the next strictly future day
whose weekday is `target`. -/
def nextMatchOffset (target today : Day) : Nat :=
  let d := (target.toNat + 7 - today.toNat) % 7
  if d = 0 then 7 else d

/-- Formalisation of claim C1's words, for comparison with
`WeekScheduler.get_next`: the span from `now` to the next occurrence of the
entry determined by the weekday cursor and its stored time of day — today's
occurrence if that time of day has not yet passed today and the cursor
points at today, otherwise the occurrence on the next matching weekday. -/
def specWeekNextFire (ws : WeekScheduler) (now : LocalTime) : Int :=
  let W := ws.current
  let T := ws.get W
  if now.weekday = W ∧ now.time < T then
    dayTime now.day T - now.instant
  else
    dayTime (now.day + nextMatchOffset W now.weekday) T - now.instant

/-- A sample weekly scheduler with distinct stored times, cursor on Monday,
used to instantiate the theorems at concrete inputs. -/
def sampleWeek : WeekScheduler :=
  { mon := 100, tue := 200, wed := 300, thu := 400, fri := 500, sat := 600,
    sun := 700, current := Day.monday }

/-- Folding `min` over a list whose every element is at least the initial
value leaves the initial value. -/
lemma foldr_min_of_le {α : Type} (f : α → Int) (p : Int) (l : List α)
    (h : ∀ e ∈ l, p ≤ f e) :
    l.foldr (fun e acc => min (f e) acc) p = p := by
  induction l with
  | nil => rfl
  | cons e rest ih =>
    simp only [List.foldr]
    rw [ih (fun x hx => h x (List.mem_cons_of_mem _ hx))]
    exact min_eq_right (h e (List.mem_cons_self e rest))

/-- A renewal produced by `Entry.add` is always a weekly entry: the weekly
impl returns itself and the repeating impl inherits the default `None`. -/
lemma entry_add_week (e e2 : Entry) (h : e.add = some e2) :
    ∃ ws : WeekScheduler, e2 = Entry.week ws := by
  cases e with
  | week ws =>
    simp only [Entry.add, WeekScheduler.add, Option.map, Option.some.injEq] at h
    exact ⟨_, h.symm⟩
  | repeating r =>
    simp [Entry.add, RepeatingScheduler.add] at h

/-- C4 (code-bug evidence): at the NaN input — reachable, since the
/set-strength handler in main.rs parses the query value with an f64 parse
that accepts "NaN" and feeds it to `Strength::new_clamped` — both clamping
comparisons are false, so the raw NaN is wrapped and the resulting
`Strength` is outside [0, 1]; on every other input both constructors do
enforce the range (the strict one never returns an out-of-range value and
the clamping one maps every non-NaN input into [0, 1]). -/
theorem c4_strength_range_nan :
    (StrengthF.new_clamped F64.nan = ⟨F64.nan⟩ ∧
      (StrengthF.new_clamped F64.nan).inRange = false) ∧
    (∀ v : F64, ((StrengthF.new v).all StrengthF.inRange) = true) ∧
    (∀ q : ℚ, (StrengthF.new_clamped (F64.finite q)).inRange = true) := by
  refine ⟨⟨rfl, rfl⟩, fun v => ?_, fun q => ?_⟩
  · cases v with
    | nan => rfl
    | finite q =>
      simp only [StrengthF.new, F64.le, Bool.and_eq_true, decide_eq_true_eq]
      by_cases h1 : q ≤ 1 <;> by_cases h0 : 0 ≤ q <;>
        simp [h1, h0, StrengthF.inRange]
  · simp only [StrengthF.new_clamped, F64.lt]
    by_cases hneg : q < 0
    · simp [hneg, StrengthF.inRange]
    · by_cases hbig : 1 < q
      · simp [hneg, hbig, StrengthF.inRange]
      · have e1 : decide (q < 0) = false := decide_eq_false hneg
        have e2 : decide (1 < q) = false := decide_eq_false hbig
        simp only [e1, e2, Bool.false_eq_true, if_false, StrengthF.inRange,
          decide_eq_true_eq]
        exact ⟨le_of_not_lt hneg, le_of_not_lt hbig⟩

/-- C5: the strict constructor `Strength::new` panics (returns no value)
exactly on input outside [0, 1] and returns `Strength(v)` on input inside. -/
theorem c5_strength_new_strict (v : ℚ) :
    ((v < 0 ∨ 1 < v) → Strength.new v = none) ∧
    ((0 ≤ v ∧ v ≤ 1) → Strength.new v = some ⟨v⟩) := by
  unfold Strength.new
  constructor
  · intro h
    rw [if_neg]
    rcases h with h | h
    · exact fun hc => absurd hc.2 (not_le.mpr h)
    · exact fun hc => absurd hc.1 (not_le.mpr h)
  · intro h
    rw [if_pos ⟨h.2, h.1⟩]

/-- C5 witness: the strict constructor at the out-of-range input 2 and the
in-range input 1/2. -/
theorem c5_witness :
    Strength.new 2 = none ∧ Strength.new (1/2) = some ⟨1/2⟩ :=
  ⟨(c5_strength_new_strict 2).1 (Or.inr (by norm_num)),
   (c5_strength_new_strict (1/2)).2 (by norm_num)⟩

/-- C10: on every in-range input the strict and the clamping constructor
agree: `Strength::new` succeeds and returns the same value that
`Strength::new_clamped` produces. -/
theorem c10_constructors_agree (v : ℚ) (h0 : 0 ≤ v) (h1 : v ≤ 1) :
    Strength.new v = some (Strength.new_clamped v) := by
  unfold Strength.new Strength.new_clamped
  rw [if_pos ⟨h1, h0⟩, if_neg (not_lt.mpr h0), if_neg (not_lt.mpr h1)]

/-- C10 witness: the two constructors agree at the concrete input 1/2. -/
theorem c10_witness :
    Strength.new (1/2) = some (Strength.new_clamped (1/2)) :=
  c10_constructors_agree (1/2) (by norm_num) (by norm_num)

/-- C2 (code-bug evidence): the `TransitionInterpolation` declared in src's
lib.rs has exactly the two kinds `Linear` and `Sine`, not the four the claim
(and main.rs, which constructs `LinearToAndBack`/`SineToAndBack`) requires;
the boundary translation of main.rs does map each curve name — "linear",
"sine", "linear-extra", "sine-extra" with one numeric extra — to the
corresponding kind of the four-kind enum. -/
theorem c2_interpolation_kinds :
    (∀ i : TransitionInterpolation, i = .Linear ∨ i = .Sine) ∧
    parseInterpolation "linear" [] = some .Linear ∧
    parseInterpolation "sine" [] = some .Sine ∧
    (∀ m : ℚ, parseInterpolation "linear-extra" [some m] =
      some (.LinearToAndBack m)) ∧
    (∀ m : ℚ, parseInterpolation "sine-extra" [some m] =
      some (.SineToAndBack m)) := by
  refine ⟨fun i => ?_, rfl, rfl, fun m => rfl, fun m => rfl⟩
  cases i
  · exact Or.inl rfl
  · exact Or.inr rfl

/-- C6: the weekly entry's firing renewal always returns a renewed entry
(never removal), the renewed entry's cursor is advanced exactly one weekday
while all seven stored times of day are unchanged, and the advance is
cyclic — one step forward modulo 7, so Sunday -> Monday. -/
theorem c6_week_add_renews (ws : WeekScheduler) :
    (ws.add).isSome = true ∧
    (∀ ws2, ws.add = some ws2 →
      ws2.current = ws.current.next ∧ ∀ d : Day, ws2.get d = ws.get d) ∧
    (∀ d : Day, d.next.toNat = (d.toNat + 1) % 7) := by
  refine ⟨rfl, ?_, fun d => by cases d <;> rfl⟩
  intro ws2 h
  simp only [WeekScheduler.add, Option.some.injEq] at h
  subst h
  exact ⟨rfl, fun d => by cases d <;> rfl⟩

/-- C6 witness: renewing the sample scheduler (cursor Monday) yields the
same scheduler with cursor Tuesday and the same stored times. -/
theorem c6_witness :
    ({ sampleWeek with current := Day.tuesday } : WeekScheduler).current =
      sampleWeek.current.next ∧
    ∀ d : Day, ({ sampleWeek with current := Day.tuesday } : WeekScheduler).get d =
      sampleWeek.get d :=
  (c6_week_add_renews sampleWeek).2.1 _ rfl

/-- C7: `RepeatingScheduler` inherits the `Scheduler` trait's default firing
hook, which returns no renewal, so after a due repeating auxiliary entry
fires it is no longer in the auxiliary set. -/
theorem c7_repeating_one_shot (r : RepeatingScheduler) :
    r.add = none ∧
    ∀ (now : LocalTime) (aux : List Entry),
      (Entry.repeating r).get_next now ≤ 0 →
      Entry.repeating r ∉ fireDueAux now aux := by
  refine ⟨rfl, ?_⟩
  intro now aux hdue
  induction aux with
  | nil => simp [fireDueAux]
  | cons e rest ih =>
    rw [fireDueAux]
    by_cases hle : e.get_next now ≤ 0
    · rw [if_pos hle]
      cases he : e.add with
      | none => exact ih
      | some renewed =>
        obtain ⟨ws, rfl⟩ := entry_add_week e renewed he
        intro hmem
        rcases List.mem_cons.mp hmem with h1 | h2
        · exact Entry.noConfusion h1
        · exact ih h2
    · rw [if_neg hle]
      intro hmem
      rcases List.mem_cons.mp hmem with h1 | h2
      · exact hle (h1 ▸ hdue)
      · exact ih h2

/-- C7 witness: a due repeating entry at time-of-day 100 is dropped from a
singleton auxiliary set by firing. -/
theorem c7_witness :
    RepeatingScheduler.add ⟨100⟩ = none ∧
    Entry.repeating ⟨100⟩ ∉
      fireDueAux ⟨0, 90000⟩ [Entry.repeating ⟨100⟩] :=
  ⟨(c7_repeating_one_shot ⟨100⟩).1,
   (c7_repeating_one_shot ⟨100⟩).2 ⟨0, 90000⟩ [Entry.repeating ⟨100⟩]
     (by decide)⟩

/-- C8: when the weekly entry's relevant stored time of day (the one the
inherent `get_next` selects) equals the repeating entry's time of day, the
two entries return the same `next_fire` span at every wall-clock moment. -/
theorem c8_repeating_matches_week (ws : WeekScheduler)
    (r : RepeatingScheduler) (now : LocalTime) (h : ws.next_time = r.time) :
    ws.get_next now = r.get_next now := by
  unfold WeekScheduler.get_next RepeatingScheduler.get_next
  rw [h]

/-- C8 witness: the sample scheduler (relevant stored time 200) and the
repeating entry at 200 agree at day 3, time 50. -/
theorem c8_witness :
    sampleWeek.get_next ⟨3, 50⟩ = RepeatingScheduler.get_next ⟨200⟩ ⟨3, 50⟩ :=
  c8_repeating_matches_week sampleWeek ⟨200⟩ ⟨3, 50⟩ rfl

/-- C1 counterexample: with the sample scheduler (cursor Monday, Monday's
stored time 100, Tuesday's 200) at day 3 (a Thursday), time 50, the code
returns 150 — the span to today at Tuesday's stored time — while the
claim's rule gives the span to the stored occurrence on the next Monday,
345650; the two disagree. -/
theorem c1_counterexample :
    sampleWeek.get_next ⟨3, 50⟩ ≠ specWeekNextFire sampleWeek ⟨3, 50⟩ := by
  decide

/-- C1 (amended): the weekly entry's `next_fire` uses the time of day
stored for the weekday AFTER the cursor and, regardless of which weekday
today is, returns the span from `now` to today's occurrence of that time if
it has not yet passed, else to tomorrow's: the unique span in (0, 86400]
whose endpoint falls exactly on that stored time of day. -/
theorem c1_week_get_next_span (ws : WeekScheduler) (now : LocalTime)
    (hnow : now.time < 86400) (ht : ws.next_time < 86400) :
    0 < ws.get_next now ∧ ws.get_next now ≤ 86400 ∧
    (now.instant + ws.get_next now) % 86400 = (ws.next_time : Int) ∧
    ∀ span : Int, 0 < span → span ≤ 86400 →
      (now.instant + span) % 86400 = (ws.next_time : Int) →
      span = ws.get_next now := by
  have hkey : ws.get_next now =
      if now.time < ws.next_time
      then (ws.next_time : Int) - (now.time : Int)
      else 86400 + (ws.next_time : Int) - (now.time : Int) := by
    simp only [WeekScheduler.get_next, LocalTime.instant, dayTime]
    split_ifs <;> push_cast <;> ring
  have hinst : now.instant = (now.day : Int) * 86400 + (now.time : Int) := rfl
  rw [hkey, hinst]
  split_ifs with hc
  · refine ⟨by omega, by omega, by omega, fun span h1 h2 h3 => by omega⟩
  · refine ⟨by omega, by omega, by omega, fun span h1 h2 h3 => by omega⟩

/-- C1 witness: the span facts at the sample scheduler, day 3, time 50. -/
theorem c1_witness :
    0 < sampleWeek.get_next ⟨3, 50⟩ ∧ sampleWeek.get_next ⟨3, 50⟩ ≤ 86400 ∧
    ((⟨3, 50⟩ : LocalTime).instant + sampleWeek.get_next ⟨3, 50⟩) % 86400 =
      (sampleWeek.next_time : Int) := by
  have h := c1_week_get_next_span sampleWeek ⟨3, 50⟩ (by decide) (by decide)
  exact ⟨h.1, h.2.1, h.2.2.1⟩

/-- C3: processing ClearAllSchedulers empties the auxiliary entries, leaves
the primary weekly entry unchanged, and — when no auxiliary entry was due
sooner than the primary — leaves the set's `next_fire` value unchanged. -/
theorem c3_clear_keeps_primary (s : State) (now : LocalTime) :
    (s.clearAllSchedulers).auxiliary = [] ∧
    (s.clearAllSchedulers).primary = s.primary ∧
    ((∀ e ∈ s.auxiliary, s.primary.get_next now ≤ e.get_next now) →
      (s.clearAllSchedulers).next_fire now = s.next_fire now) := by
  refine ⟨rfl, rfl, fun h => ?_⟩
  unfold State.next_fire State.clearAllSchedulers
  simp only [List.foldr]
  exact (foldr_min_of_le (fun e : Entry => e.get_next now) _ _ h).symm

/-- C3 witness: clearing a set holding the sample primary plus one
repeating auxiliary at 300 (due later than the primary at day 0, time 0)
empties the auxiliaries, keeps the primary, and preserves `next_fire`. -/
theorem c3_witness :
    (State.clearAllSchedulers ⟨sampleWeek, [Entry.repeating ⟨300⟩]⟩).auxiliary
      = [] ∧
    (State.clearAllSchedulers ⟨sampleWeek, [Entry.repeating ⟨300⟩]⟩).primary
      = sampleWeek ∧
    (State.clearAllSchedulers ⟨sampleWeek, [Entry.repeating ⟨300⟩]⟩).next_fire
      ⟨0, 0⟩ = State.next_fire ⟨sampleWeek, [Entry.repeating ⟨300⟩]⟩ ⟨0, 0⟩ := by
  have h := c3_clear_keeps_primary ⟨sampleWeek, [Entry.repeating ⟨300⟩]⟩ ⟨0, 0⟩
  exact ⟨h.1, h.2.1, h.2.2 (by decide)⟩

/-- C9: each iteration of the control loop drains at most one command from
the mailbox; a present command cancels any pending sleep disposition
(bounded or unbounded) and is handed to `process` in that same iteration;
with no command and a bounded deadline still in the future the loop only
sleeps the poll tick and re-polls, never reaching `process`, and likewise
under the unbounded disposition. -/
theorem c9_loop_iteration {α : Type} (q : List α) (s : Sleeping) (now : Int) :
    ((loopIter q s now).queue = q ∨ (loopIter q s now).queue = q.tail) ∧
    (∀ c rest, q = c :: rest →
      loopIter q s now = ⟨.processed (some c), rest, .wake⟩) ∧
    (∀ instant, q = [] → s = .to instant → now < instant →
      loopIter q s now = ⟨.polled, [], .to instant⟩) ∧
    (q = [] → s = .forever → loopIter q s now = ⟨.polled, [], .forever⟩) := by
  refine ⟨?_, ?_, ?_, ?_⟩
  · cases q with
    | nil =>
      left
      cases s
      · rfl
      · simp only [loopIter]
        split_ifs <;> rfl
      · rfl
    | cons c rest => right; rfl
  · intro c rest hq
    subst hq
    rfl
  · intro instant hq hs hlt
    subst hq; subst hs
    simp [loopIter, le_of_lt hlt]
  · intro hq hs
    subst hq; subst hs
    rfl

/-- C9 witness: with one queued command the iteration processes it and
cancels the bounded sleep; with an empty queue and deadline 10 at time 5 it
only re-polls; likewise under the unbounded disposition. -/
theorem c9_witness :
    loopIter [0] (Sleeping.to 10) (5 : Int) =
      ⟨.processed (some 0), [], .wake⟩ ∧
    loopIter ([] : List Nat) (Sleeping.to 10) (5 : Int) =
      ⟨.polled, [], .to 10⟩ ∧
    loopIter ([] : List Nat) Sleeping.forever (5 : Int) =
      ⟨.polled, [], .forever⟩ :=
  ⟨(c9_loop_iteration [0] (Sleeping.to 10) 5).2.1 0 [] rfl,
   (c9_loop_iteration ([] : List Nat) (Sleeping.to 10) 5).2.2.1 10 rfl rfl
     (by norm_num),
   (c9_loop_iteration ([] : List Nat) Sleeping.forever 5).2.2.2 rfl rfl⟩

end HttPWM
